import Mathlib

set_option maxHeartbeats 1000000

/-!
Shallow embedding of the core of the ghostty-config analysis engine:
the line parser, the cursor position resolver, the per-type value
validators and the completion candidate generators, together with
theorems about their behaviour.

Strings are modelled by Lean strings; the JavaScript character class
backslash-s is modelled by the ASCII whitespace predicate below, and
JavaScript number parsing is modelled over exact rationals.
-/

namespace GhosttyConfig

/-- Model of the JavaScript whitespace class used by trim and the regexes. -/
def isWS (c : Char) : Bool :=
  decide (c = ' ' ∨ c = '\t' ∨ c = '\n' ∨ c = '\r' ∨ c = '\x0b' ∨ c = '\x0c')

/-- Model of the JavaScript trimStart operation, on character lists. -/
def wsTrimStart (l : List Char) : List Char := l.dropWhile isWS

/-- Model of the JavaScript trimEnd operation, on character lists. -/
def wsTrimEnd (l : List Char) : List Char := (l.reverse.dropWhile isWS).reverse

/-- Model of the JavaScript trim operation, on character lists. -/
def wsTrim (l : List Char) : List Char := wsTrimEnd (wsTrimStart l)

/-- Model of the JavaScript trim operation, on strings. -/
def trimJS (s : String) : String := ⟨wsTrim s.data⟩

/-- Model of the JavaScript toLowerCase operation (character-wise). -/
def strToLower (s : String) : String := ⟨s.data.map Char.toLower⟩

/-- Emptiness of a string, modelling JavaScript string falsiness. -/
def strIsEmpty (s : String) : Bool := s.data.isEmpty

/-- Whether the first list starts with the second (JavaScript startsWith). -/
def listStartsWith : List Char → List Char → Bool
  | _, [] => true
  | [], _ :: _ => false
  | c :: cs, d :: ds => decide (c = d) && listStartsWith cs ds

/-- Whether the second list occurs as a contiguous sublist of the first. -/
def listContainsSub (l pat : List Char) : Bool :=
  match l with
  | [] => listStartsWith [] pat
  | _ :: t => listStartsWith l pat || listContainsSub t pat

/-- Model of the JavaScript includes method on strings. -/
def strIncludes (s sub : String) : Bool := listContainsSub s.data sub.data

/-- Model of the JavaScript startsWith method on strings. -/
def strStartsW (s pat : String) : Bool := listStartsWith s.data pat.data

/-- Index of the first occurrence of the equals sign, modelling indexOf. -/
def findEq : List Char → Option Nat
  | [] => none
  | c :: t => if c = '=' then some 0 else (findEq t).map (· + 1)

/-- Hexadecimal digit class of the colour regexes. -/
def isHexDigit (c : Char) : Bool :=
  decide (('0' ≤ c ∧ c ≤ '9') ∨ ('a' ≤ c ∧ c ≤ 'f') ∨ ('A' ≤ c ∧ c ≤ 'F'))

/-- Key characters allowed by the key grammar after the leading letter. -/
def isKeyChar (c : Char) : Bool :=
  c.isAlpha || c.isDigit || decide (c = '_') || decide (c = '-')

/- ## Data model (types.ts) -/

inductive ConfigValueType where
  | string | number | boolean | color | enum | keybind
  | path | percentage | duration | theme
deriving DecidableEq

inductive Platform where
  | macos | linux
deriving DecidableEq

structure ConfigOption where
  type : ConfigValueType
  description : String := ""
  repeatable : Option Bool := none
  deprecated : Option Bool := none
  enum : Option (List String) := none
  examples : Option (List String) := none
  platforms : Option (List Platform) := none
  minimum : Option ℚ := none
  maximum : Option ℚ := none
  pattern : Option String := none
  default : Option String := none
deriving DecidableEq

structure TypeDefinition where
  description : String := ""
  patterns : Option (List String) := none
  validValues : Option (List String) := none
  namedValues : Option (List String) := none
  prefixes : Option (List String) := none
  modifiers : Option (List String) := none
  actions : Option (List String) := none
deriving DecidableEq

structure GhosttySchema where
  version : String := ""
  description : String := ""
  options : List (String × ConfigOption) := []
  types : List (String × TypeDefinition) := []
  repeatableKeys : List String := []
deriving DecidableEq

inductive LineKind where
  | empty | comment | keyValue | invalid
deriving DecidableEq

structure Range where
  start : Nat
  «end» : Nat
deriving DecidableEq

structure ParsedLine where
  type : LineKind
  lineNumber : Nat
  key : Option String := none
  value : Option String := none
  keyRange : Option Range := none
  valueRange : Option Range := none
  raw : String
deriving DecidableEq

inductive Severity where
  | error | warning | info | hint
deriving DecidableEq

structure ValidationResult where
  isValid : Bool
  message : Option String := none
  severity : Option Severity := none
deriving DecidableEq

/-- Record lookup into the options map (keys are unique). -/
def findOption (schema : GhosttySchema) (key : String) : Option ConfigOption :=
  (schema.options.find? (fun kv => kv.1 == key)).map (·.2)

/-- Record lookup into the types map (keys are unique). -/
def findType (schema : GhosttySchema) (name : String) : Option TypeDefinition :=
  (schema.types.find? (fun kv => kv.1 == name)).map (·.2)

/- ## JavaScript number model (parseFloat) -/

/-- Result domain of parseFloat: NaN, the two infinities, or a finite
value modelled as an exact rational. -/
inductive JsNum where
  | nan
  | posInf
  | negInf
  | val (q : ℚ)
deriving DecidableEq

/-- Numeric value of a digit run. -/
def digitsToNat (ds : List Char) : Nat :=
  ds.foldl (fun a c => a * 10 + (c.toNat - '0'.toNat)) 0

/-- Value of the exponent suffix of a float literal. -/
def expVal (t : List Char) : Int :=
  let (es, t1) : Int × List Char :=
    match t with
    | '-' :: u => (-1, u)
    | '+' :: u => (1, u)
    | _ => (1, t)
  let ds := t1.takeWhile Char.isDigit
  if ds.isEmpty then 0 else es * (digitsToNat ds : Int)

/-- Exact rational with value i times ten to the e. -/
def decScale (i : Int) (e : Int) : ℚ :=
  if 0 ≤ e then mkRat (i * ((10 : Nat) ^ e.toNat : Nat)) 1
  else mkRat i ((10 : Nat) ^ (-e).toNat)

/-- Model of the JavaScript parseFloat function: skip leading whitespace,
parse an optional sign, an Infinity literal or a decimal mantissa with an
optional exponent, ignore trailing characters, and return NaN when no
digits are found. The parsed value digits.fraction times ten to the
exponent is assembled exactly, over the rationals. -/
def jsParseFloat (s : String) : JsNum :=
  let l := s.data.dropWhile isWS
  let (neg, l1) : Bool × List Char :=
    match l with
    | '-' :: t => (true, t)
    | '+' :: t => (false, t)
    | _ => (false, l)
  if listStartsWith l1 ['I', 'n', 'f', 'i', 'n', 'i', 't', 'y'] then
    if neg then .negInf else .posInf
  else
    let ip := l1.takeWhile Char.isDigit
    let r1 := l1.drop ip.length
    let (fp, r2) : List Char × List Char :=
      match r1 with
      | '.' :: t => (t.takeWhile Char.isDigit, t.drop (t.takeWhile Char.isDigit).length)
      | _ => ([], r1)
    if ip.isEmpty && fp.isEmpty then .nan
    else
      let base : Int := (digitsToNat ip * 10 ^ fp.length + digitsToNat fp : Nat)
      let ex : Int :=
        match r2 with
        | 'e' :: t => expVal t
        | 'E' :: t => expVal t
        | _ => 0
      let signed : Int := if neg then -base else base
      .val (decScale signed (ex - fp.length))

/-- JavaScript strict less-than between a parsed number and a bound. -/
def jsLtQ : JsNum → ℚ → Bool
  | .nan, _ => false
  | .posInf, _ => false
  | .negInf, _ => true
  | .val q, m => decide (q < m)

/-- JavaScript strict greater-than between a parsed number and a bound. -/
def jsGtQ : JsNum → ℚ → Bool
  | .nan, _ => false
  | .posInf, _ => true
  | .negInf, _ => false
  | .val q, m => decide (m < q)

/-- Rendering of a rational bound or value inside messages (model of
JavaScript number stringification). -/
def ratToStr (q : ℚ) : String :=
  if q.den = 1 then toString q.num else toString q.num ++ "/" ++ toString q.den

/-- Rendering of a parsed number inside messages. -/
def numToStr : JsNum → String
  | .nan => "NaN"
  | .posInf => "Infinity"
  | .negInf => "-Infinity"
  | .val q => ratToStr q

/- ## Validators (validators.ts) -/

def BOOLEAN_VALUES : List String := ["true", "false", "yes", "no", "on", "off"]

def NAMED_COLORS : List String :=
  ["black", "red", "green", "yellow", "blue", "magenta", "cyan", "white",
   "gray", "grey", "darkred", "darkgreen", "darkyellow", "darkblue",
   "darkmagenta", "darkcyan", "lightgray", "lightgrey", "lightred",
   "lightgreen", "lightyellow", "lightblue", "lightmagenta", "lightcyan",
   "orange", "pink", "purple", "brown", "gold", "silver", "navy", "maroon",
   "olive", "lime", "aqua", "teal", "fuchsia", "transparent",
   "cell-foreground", "cell-background", "background", "extend", "extend-always"]

def validateBoolean (value : String) : ValidationResult :=
  if strToLower value ∈ BOOLEAN_VALUES then ⟨true, none, none⟩
  else
    ⟨false,
     some ("Invalid boolean value: \x27" ++ value ++
       "\x27. Expected one of: true, false, yes, no, on, off"),
     some .error⟩

/-- Maximum-bound half of validateNumber. -/
def numMaxCheck (num : JsNum) (o : ConfigOption) : ValidationResult :=
  match o.maximum with
  | some m =>
    if jsGtQ num m then
      ⟨false, some ("Value " ++ numToStr num ++ " is above maximum " ++ ratToStr m),
       some .error⟩
    else ⟨true, none, none⟩
  | none => ⟨true, none, none⟩

def validateNumber (value : String) (opt : Option ConfigOption) : ValidationResult :=
  let num := jsParseFloat value
  if num = .nan then
    ⟨false, some ("Invalid number: \x27" ++ value ++ "\x27"), some .error⟩
  else
    match opt with
    | some o =>
      match o.minimum with
      | some m =>
        if jsLtQ num m then
          ⟨false, some ("Value " ++ numToStr num ++ " is below minimum " ++ ratToStr m),
           some .error⟩
        else numMaxCheck num o
      | none => numMaxCheck num o
    | none => ⟨true, none, none⟩

/-- One alternative of HEX\_COLOR\_REGEX: a hash sign followed by exactly
n hexadecimal digits. -/
def hexTest (n : Nat) (s : String) : Bool :=
  match s.data with
  | [] => false
  | c :: rest => decide (c = '#') && decide (rest.length = n) && rest.all isHexDigit

/-- Model of HEX\_COLOR\_REGEX (hash plus 3, 6 or 8 hex digits). -/
def hexColorRegexTest (s : String) : Bool :=
  hexTest 3 s || hexTest 6 s || hexTest 8 s

/-- Model of HEX\_COLOR\_NO\_HASH\_REGEX (exactly 6 hex digits, no hash). -/
def hexNoHashTest (s : String) : Bool :=
  decide (s.data.length = 6) && s.data.all isHexDigit

def validateColor (value : String) : ValidationResult :=
  if hexColorRegexTest value || hexNoHashTest value then ⟨true, none, none⟩
  else if strToLower value ∈ NAMED_COLORS then ⟨true, none, none⟩
  else
    ⟨false,
     some ("Invalid colour: \x27" ++ value ++
       "\x27. Expected hex (#RGB, #RRGGBB, #RRGGBBAA) or named colour"),
     some .error⟩

def validateEnum (value : String) (opt : ConfigOption) : ValidationResult :=
  match opt.enum with
  | none => ⟨true, none, none⟩
  | some vs =>
    if value ∈ vs then ⟨true, none, none⟩
    else
      ⟨false,
       some ("Invalid value: \x27" ++ value ++ "\x27. Expected one of: " ++
         String.intercalate ", " vs),
       some .error⟩

def validateKeybind (value : String) (schema : GhosttySchema) : ValidationResult :=
  if value = "clear" then ⟨true, none, none⟩
  else
    match findEq value.data with
    | none =>
      ⟨false, some "Invalid keybind format. Expected: [prefix:]trigger=action[:param]",
       some .error⟩
    | some equalsIndex =>
      let trigger := value.data.take equalsIndex
      let actionPart := value.data.drop (equalsIndex + 1)
      if trigger.all isWS then
        ⟨false, some "Keybind trigger cannot be empty", some .error⟩
      else
        let actionName := actionPart.takeWhile (fun c => c != ':')
        if actionName.all isWS then
          ⟨false, some "Keybind action cannot be empty", some .error⟩
        else
          match findType schema "keybind" with
          | some keybindType =>
            match keybindType.actions with
            | some acts =>
              if 0 < acts.length then
                if (⟨actionName⟩ : String) ∈ acts then ⟨true, none, none⟩
                else
                  ⟨false,
                   some ("Unknown keybind action: \x27" ++ String.mk actionName ++ "\x27"),
                   some .warning⟩
              else ⟨true, none, none⟩
            | none => ⟨true, none, none⟩
          | none => ⟨true, none, none⟩

def validatePath (value : String) : ValidationResult :=
  if value.data.all isWS then
    ⟨false, some "Path cannot be empty", some .error⟩
  else if strStartsW value "~" || strStartsW value "/" ||
      strStartsW value "./" || strStartsW value "?" then
    ⟨true, none, none⟩
  else ⟨true, none, none⟩

def validatePercentage (value : String) : ValidationResult :=
  let cleanValue : List Char :=
    match value.data.getLast? with
    | some '%' => value.data.dropLast
    | _ => value.data
  if jsParseFloat ⟨cleanValue⟩ = .nan then
    ⟨false, some ("Invalid percentage/number: \x27" ++ value ++ "\x27"), some .error⟩
  else ⟨true, none, none⟩

def DURATION_UNITS : List String := ["y", "d", "h", "m", "s", "ms", "us", "µs", "ns"]

/-- Model of the duration regex: optional minus sign, digits, optional
fraction, optional unit suffix, anchored at both ends. -/
def durationTest (s : String) : Bool :=
  let l1 : List Char :=
    match s.data with
    | '-' :: t => t
    | l => l
  let ds := l1.takeWhile Char.isDigit
  if ds.isEmpty then false
  else
    match l1.drop ds.length with
    | '.' :: t =>
      let fs := t.takeWhile Char.isDigit
      if fs.isEmpty then false
      else
        let r := t.drop fs.length
        r.isEmpty || decide ((⟨r⟩ : String) ∈ DURATION_UNITS)
    | r => r.isEmpty || decide ((⟨r⟩ : String) ∈ DURATION_UNITS)

def validateDuration (value : String) : ValidationResult :=
  if durationTest value then ⟨true, none, none⟩
  else
    ⟨false,
     some ("Invalid duration: \x27" ++ value ++
       "\x27. Expected number with optional unit (s, ms, etc.)"),
     some .error⟩

def validateValue (schema : GhosttySchema) (key value : String) : ValidationResult :=
  match findOption schema key with
  | none =>
    ⟨false, some ("Unknown configuration key: \x27" ++ key ++ "\x27"), some .warning⟩
  | some opt =>
    if value.data.all isWS then ⟨true, none, none⟩
    else
      match opt.type with
      | .boolean => validateBoolean value
      | .number => validateNumber value (some opt)
      | .color => validateColor value
      | .enum => validateEnum value opt
      | .keybind => validateKeybind value schema
      | .path => validatePath value
      | .percentage => validatePercentage value
      | .duration => validateDuration value
      | .string => ⟨true, none, none⟩
      | .theme => ⟨true, none, none⟩

/- ## Line parser (configParser.ts) -/

/-- Model of COMMENT\_REGEX: optional leading whitespace then a hash. -/
def commentTest (l : List Char) : Bool :=
  decide ((l.dropWhile isWS).headD ' ' = '#')

/-- Model of a successful KEY\_VALUE\_REGEX match: returns the indent
length, the key characters and the (trimmed) value characters. The
regex admits exactly: leading whitespace, a key starting with a letter
and continuing with key characters, optional whitespace, an equals
sign, then the rest of the line whose trimmed form is the value. -/
def keyValueMatch (l : List Char) : Option (Nat × List Char × List Char) :=
  let ind := l.takeWhile isWS
  let rest := l.drop ind.length
  match rest with
  | [] => none
  | c :: _ =>
    if c.isAlpha then
      let key := rest.takeWhile isKeyChar
      match (rest.drop key.length).dropWhile isWS with
      | '=' :: after => some (ind.length, key, wsTrim after)
      | _ => none
    else none

/-- Value range computation of the keyValue branch: start is placed after
the first equals sign plus the run of whitespace that follows it, end is
the length of the line trimmed of trailing whitespace. -/
def computeValueRange (l : List Char) : Range :=
  let equalsIndex := (findEq l).getD 0
  let suf := l.drop (equalsIndex + 1)
  ⟨equalsIndex + 1 + (suf.length - (suf.dropWhile isWS).length), (wsTrimEnd l).length⟩

def parseLine (line : String) (lineNumber : Nat) : ParsedLine :=
  let l := line.data
  if l.all isWS then
    { type := .empty, lineNumber := lineNumber, raw := line }
  else if commentTest l then
    { type := .comment, lineNumber := lineNumber, raw := line }
  else
    match keyValueMatch l with
    | some (indLen, key, val) =>
      { type := .keyValue, lineNumber := lineNumber,
        key := some ⟨key⟩, value := some ⟨val⟩,
        keyRange := some ⟨indLen, indLen + key.length⟩,
        valueRange := some (computeValueRange l),
        raw := line }
    | none => { type := .invalid, lineNumber := lineNumber, raw := line }

def parseDocument (text : String) : List ParsedLine :=
  (text.splitOn "\n").enum.map (fun p => parseLine p.2 p.1)

/- ## Position resolver (configParser.ts) -/

def isInKeyPosition (line : String) (character : Nat) : Bool :=
  match findEq line.data with
  | none => true
  | some equalsIndex => decide (character ≤ equalsIndex)

def isInValuePosition (line : String) (character : Nat) : Bool :=
  match findEq line.data with
  | none => false
  | some equalsIndex => decide (equalsIndex < character)

/- ## Completion engine (completionProvider.ts) -/

/-- Completion item model: the fields of vscode.CompletionItem that the
provider fills in (documentation, kind and command are presentation-only
and omitted). -/
structure CompletionItem where
  label : String
  detail : String := ""
  insertText : Option String := none
  sortText : Option String := none
  deprecatedTag : Bool := false
deriving DecidableEq

/-- Labels of a completion list. -/
def labels (items : List CompletionItem) : List String :=
  items.map CompletionItem.label

def platformName : Platform → String
  | .macos => "macos"
  | .linux => "linux"

def typeName : ConfigValueType → String
  | .string => "string"
  | .number => "number"
  | .boolean => "boolean"
  | .color => "color"
  | .enum => "enum"
  | .keybind => "keybind"
  | .path => "path"
  | .percentage => "percentage"
  | .duration => "duration"
  | .theme => "theme"

def getTypeLabel (o : ConfigOption) : String :=
  typeName o.type ++
  (if o.repeatable.getD false then " (repeatable)" else "") ++
  (match o.platforms with
   | some ps =>
     if ps.length ≠ 0 then " [" ++ String.intercalate ", " (ps.map platformName) ++ "]"
     else ""
   | none => "")

def getKeyCompletions (schema : GhosttySchema) (textBeforeCursor : String) :
    List CompletionItem :=
  let pfx := strToLower (trimJS textBeforeCursor)
  (schema.options.filter
      (fun kv => strIsEmpty pfx || strIncludes (strToLower kv.1) pfx)).map
    (fun kv =>
      { label := kv.1
        detail := getTypeLabel kv.2
        insertText := some (kv.1 ++ " = ")
        sortText := some (if kv.2.deprecated.getD false then "z_" ++ kv.1 else kv.1)
        deprecatedTag := kv.2.deprecated.getD false })

def getBooleanCompletions (p : String) : List CompletionItem :=
  (["true", "false"].filter (fun v => strIsEmpty p || strStartsW v p)).map
    (fun v => { label := v, detail := "Boolean" })

def hexTemplates : List (String × String × String) :=
  [("#RRGGBB", "#", "Hex colour (e.g. #ff0000)")]

def namedCompletionColors : List String :=
  ["black", "red", "green", "yellow", "blue", "magenta", "cyan", "white",
   "transparent", "cell-foreground", "cell-background"]

def getColorCompletions (p : String) : List CompletionItem :=
  (hexTemplates.filter
      (fun t => strIsEmpty p || strIncludes (strToLower t.1) p || strStartsW t.2.1 p)).map
    (fun t => { label := t.1, insertText := some t.2.1, detail := t.2.2 })
  ++ (namedCompletionColors.filter (fun c => strIsEmpty p || strIncludes c p)).map
    (fun c => { label := c, detail := "Named colour" })

def getEnumCompletions (opt : ConfigOption) (p : String) : List CompletionItem :=
  match opt.enum with
  | none => []
  | some vs =>
    (vs.filter (fun v => strIsEmpty p || strIncludes (strToLower v) p)).map
      (fun v => { label := v, detail := typeName opt.type })

def commonPatterns : List (String × String) :=
  [("ctrl+", "Control modifier"),
   ("shift+", "Shift modifier"),
   ("alt+", "Alt/Option modifier"),
   ("super+", "Super/Command modifier"),
   ("cmd+", "Command modifier (macOS)"),
   ("global:", "Global prefix (works when unfocused)"),
   ("performable:", "Performable prefix"),
   ("clear", "Clear all keybindings")]

def commonKeybinds : List String :=
  ["ctrl+c=copy_to_clipboard",
   "ctrl+v=paste_from_clipboard",
   "ctrl+shift+c=copy_to_clipboard",
   "ctrl+shift+v=paste_from_clipboard",
   "ctrl+t=new_tab",
   "ctrl+w=close_surface",
   "ctrl+shift+t=new_window",
   "ctrl+=increase_font_size",
   "ctrl+-=decrease_font_size",
   "ctrl+0=reset_font_size"]

/-- Second segment of the JavaScript split on the equals sign: the part
of the text after the first equals sign and before the next one. -/
def splitSecondSeg (p : String) : String :=
  match findEq p.data with
  | some i => ⟨(p.data.drop (i + 1)).takeWhile (fun c => c != '=')⟩
  | none => ""

def getKeybindCompletions (schema : GhosttySchema) (p : String) : List CompletionItem :=
  if strIncludes p "=" then
    match findType schema "keybind" with
    | some keybindType =>
      match keybindType.actions with
      | some acts =>
        let afterEq := strToLower (splitSecondSeg p)
        (acts.filter
            (fun a => strIsEmpty afterEq || strIncludes (strToLower a) afterEq)).map
          (fun a => { label := a, detail := "Keybind action" })
      | none => []
    | none => []
  else
    (commonPatterns.filter
        (fun pr => strIsEmpty p || strIncludes (strToLower pr.1) p)).map
      (fun pr => { label := pr.1, detail := pr.2 })
    ++ (commonKeybinds.filter (fun kb => strIsEmpty p || strIncludes (strToLower kb) p)).map
      (fun kb => { label := kb, detail := "Common keybind" })

def themesList : List String :=
  ["auto", "light", "dark",
   "Catppuccin Mocha", "Catppuccin Frappe", "Catppuccin Latte", "Catppuccin Macchiato",
   "Dracula", "Gruvbox Dark", "Gruvbox Light", "Nord", "One Dark", "Solarized Dark",
   "Solarized Light", "Tokyo Night", "GitHub Dark", "GitHub Light"]

def themeComboLabel : String := "light:LIGHT_THEME,dark:DARK_THEME"

def getThemeCompletions (p : String) : List CompletionItem :=
  (themesList.filter (fun t => strIsEmpty p || strIncludes (strToLower t) p)).map
    (fun t => { label := t, detail := "Theme" })
  ++ (if strIsEmpty p || strIncludes "light:" p || strIncludes "dark:" p then
      [{ label := themeComboLabel, detail := "Light/dark theme combination",
         insertText := some "light:$\x7b1:theme\x7d,dark:$\x7b2:theme\x7d" }]
    else [])

def getExampleCompletions (opt : ConfigOption) (p : String) : List CompletionItem :=
  match opt.examples with
  | none => []
  | some exs =>
    if exs.length = 0 then []
    else
      (exs.filter (fun ex => strIsEmpty p || strIncludes (strToLower ex) p)).map
        (fun ex => { label := ex, detail := "Example value" })

def getValueCompletions (schema : GhosttySchema) (key : String)
    (textBeforeCursor : String) : List CompletionItem :=
  match findOption schema key with
  | none => []
  | some opt =>
    let partialValue : String :=
      match findEq textBeforeCursor.data with
      | some i => strToLower (trimJS ⟨textBeforeCursor.data.drop (i + 1)⟩)
      | none => ""
    match opt.type with
    | .boolean => getBooleanCompletions partialValue
    | .color => getColorCompletions partialValue
    | .enum => getEnumCompletions opt partialValue
    | .keybind => getKeybindCompletions schema partialValue
    | .theme => getThemeCompletions partialValue
    | _ => getExampleCompletions opt partialValue

/- ## Concrete schemas used by witnesses and counterexamples -/

def kbOption : ConfigOption := { type := .keybind }

def kbTypeDef : TypeDefinition := { actions := some ["copy_to_clipboard"] }

/-- Schema with a keybind option and a one-action keybind vocabulary. -/
def SK : GhosttySchema :=
  { options := [("keybind", kbOption)], types := [("keybind", kbTypeDef)] }

/-- Empty schema: no options at all. -/
def SEmpty : GhosttySchema := {}

def strOption : ConfigOption := { type := .string }

/-- Schema whose two non-deprecated options are declared out of
lexicographic order. -/
def SBA : GhosttySchema := { options := [("b", strOption), ("a", strOption)] }

def numOption : ConfigOption := { type := .number, minimum := some 8, maximum := some 72 }

/-- Schema with a bounded number option. -/
def SNum : GhosttySchema := { options := [("font-size", numOption)] }

def enumNoListOption : ConfigOption := { type := .enum }

/-- Schema with an enum option that declares no enum list. -/
def SEnumNoList : GhosttySchema := { options := [("mode", enumNoListOption)] }

def enumABOption : ConfigOption := { type := .enum, enum := some ["alpha", "beta"] }

def boolOption : ConfigOption := { type := .boolean }

/-- Schema with one boolean option. -/
def SBool : GhosttySchema := { options := [("bold", boolOption)] }

/- ## Claim-side predicates -/

/-- Index i is the first occurrence of the equals sign in l. -/
def IsFirstEq (l : List Char) (i : Nat) : Prop :=
  i < l.length ∧ l.getD i ' ' = '=' ∧ ∀ k, k < i → l.getD k ' ' ≠ '='

/-- Index j carries the first non-whitespace character strictly after
position i in l. -/
def IsFirstNonWsAfter (l : List Char) (i j : Nat) : Prop :=
  i < j ∧ j < l.length ∧ isWS (l.getD j ' ') = false ∧
    ∀ k, k < j → i < k → isWS (l.getD k ' ') = true

/-- Claim-side acceptance condition for colour values, restating the
specified rule: a hash followed by 3, 6 or 8 hex digits, or a bare run
of 6 hex digits, or a named colour matched case-insensitively. -/
def colorSpecAccepts (s : String) : Prop :=
  (∃ l, s.data = '#' :: l ∧ (l.length = 3 ∨ l.length = 6 ∨ l.length = 8) ∧
    ∀ c ∈ l, isHexDigit c = true)
  ∨ (s.data.length = 6 ∧ ∀ c ∈ s.data, isHexDigit c = true)
  ∨ strToLower s ∈ NAMED_COLORS

instance (l : List Char) (i : Nat) : Decidable (IsFirstEq l i) := by
  unfold IsFirstEq
  exact inferInstance

instance (l : List Char) (i j : Nat) : Decidable (IsFirstNonWsAfter l i j) := by
  unfold IsFirstNonWsAfter
  exact inferInstance

/-- The minimum bound of the option, when declared, is respected. -/
def minOk (o : ConfigOption) (n : JsNum) : Bool :=
  match o.minimum with
  | some m => !jsLtQ n m
  | none => true

/-- The maximum bound of the option, when declared, is respected. -/
def maxOk (o : ConfigOption) (n : JsNum) : Bool :=
  match o.maximum with
  | some m => !jsGtQ n m
  | none => true

/- ## Helper lemmas -/

theorem findEq_eq_none_iff (l : List Char) : findEq l = none ↔ ∀ c ∈ l, c ≠ '=' := by
  induction l with
  | nil => simp [findEq]
  | cons c t ih =>
    by_cases hc : c = '='
    · subst hc
      simp [findEq]
    · simp [findEq, hc, Option.map_eq_none', ih]

theorem findEq_eq_some_iff (l : List Char) (i : Nat) :
    findEq l = some i ↔ IsFirstEq l i := by
  induction l generalizing i with
  | nil => simp [findEq, IsFirstEq]
  | cons c t ih =>
    by_cases hc : c = '='
    · subst hc
      simp only [findEq, if_pos rfl]
      constructor
      · intro h
        injection h with h
        subst h
        exact ⟨Nat.succ_pos _, rfl, fun k hk => absurd hk (Nat.not_lt_zero k)⟩
      · rintro ⟨hlen, hget, hmin⟩
        cases i with
        | zero => rfl
        | succ n => exact absurd rfl (hmin 0 (Nat.succ_pos n))
    · simp only [findEq, if_neg hc]
      constructor
      · intro h
        rcases Option.map_eq_some'.mp h with ⟨j, hj, hji⟩
        subst hji
        rcases (ih j).mp hj with ⟨hlen, hget, hmin⟩
        refine ⟨Nat.succ_lt_succ hlen, by simpa using hget, ?_⟩
        intro k hk
        cases k with
        | zero => simpa using hc
        | succ m => simpa using hmin m (Nat.lt_of_succ_lt_succ hk)
      · rintro ⟨hlen, hget, hmin⟩
        cases i with
        | zero => exact absurd (by simpa using hget) hc
        | succ n =>
          have ht : findEq t = some n := by
            refine (ih n).mpr ⟨Nat.lt_of_succ_lt_succ hlen, by simpa using hget, ?_⟩
            intro k hk
            simpa using hmin (k + 1) (Nat.succ_lt_succ hk)
          simp [Option.map_eq_some', ht]

theorem all_false_of_take_all_false {l : List Char} {p : Char → Bool} {n : Nat}
    (h : (l.take n).all p = false) : l.all p = false := by
  cases hl : l.all p with
  | false => rfl
  | true =>
    exfalso
    have hall := List.all_eq_true.mp hl
    have : (l.take n).all p = true :=
      List.all_eq_true.mpr fun x hx => hall x (List.take_subset n l hx)
    rw [this] at h
    exact Bool.noConfusion h

theorem getD_drop_eq (l : List Char) (k m : Nat) (d : Char) :
    (l.drop k).getD m d = l.getD (k + m) d := by
  induction l generalizing k m with
  | nil => simp
  | cons c t ih =>
    cases k with
    | zero => simp
    | succ j =>
      rw [List.drop_succ_cons, ih j m, Nat.succ_add]
      simp

theorem takeWhile_getD_true (p : Char → Bool) (d : Char) (l : List Char) :
    ∀ m, m < (l.takeWhile p).length → p (l.getD m d) = true := by
  induction l with
  | nil => intro m h; simp [List.takeWhile] at h
  | cons c t ih =>
    intro m h
    cases hc : p c with
    | false => rw [List.takeWhile_cons_of_neg (by simp [hc])] at h; simp at h
    | true =>
      rw [List.takeWhile_cons_of_pos hc] at h
      cases m with
      | zero => simpa using hc
      | succ n => simpa using ih n (Nat.lt_of_succ_lt_succ h)

theorem takeWhile_getD_false (p : Char → Bool) (d : Char) (l : List Char)
    (h : (l.takeWhile p).length < l.length) :
    p (l.getD (l.takeWhile p).length d) = false := by
  induction l with
  | nil => simp at h
  | cons c t ih =>
    cases hc : p c with
    | false =>
      rw [List.takeWhile_cons_of_neg (by simp [hc])]
      simpa using hc
    | true =>
      rw [List.takeWhile_cons_of_pos hc] at h ⊢
      simpa using ih (Nat.lt_of_succ_lt_succ h)

theorem takeWhile_length_le' (p : Char → Bool) (l : List Char) :
    (l.takeWhile p).length ≤ l.length :=
  List.Sublist.length_le (List.takeWhile_sublist p)

theorem length_sub_dropWhile (p : Char → Bool) (l : List Char) :
    l.length - (l.dropWhile p).length = (l.takeWhile p).length := by
  have h := congrArg List.length (List.takeWhile_append_dropWhile (p := p) (l := l))
  rw [List.length_append] at h
  omega

theorem isFirstEq_unique {l : List Char} {i j : Nat}
    (hi : IsFirstEq l i) (hj : IsFirstEq l j) : i = j := by
  have h1 : findEq l = some i := (findEq_eq_some_iff l i).mpr hi
  have h2 : findEq l = some j := (findEq_eq_some_iff l j).mpr hj
  rw [h1] at h2
  exact Option.some.inj h2

/- ## C8: position resolver -/

/-- C8: on every line and cursor offset exactly one of the two position
predicates holds; the cursor is in value position exactly when the line
has an equals sign whose first occurrence is strictly before the offset,
and in key position exactly when the line has no equals sign or the
offset is at or before the first occurrence. -/
theorem keyValuePosition_spec (line : String) (c : Nat) :
    (isInKeyPosition line c = !(isInValuePosition line c))
  ∧ (isInValuePosition line c = true ↔ ∃ i, IsFirstEq line.data i ∧ i < c)
  ∧ (isInKeyPosition line c = true ↔
      ((∀ ch ∈ line.data, ch ≠ '=') ∨ ∃ i, IsFirstEq line.data i ∧ c ≤ i)) := by
  cases h : findEq line.data with
  | none =>
    have hno : ∀ i, ¬ IsFirstEq line.data i := by
      intro i hi
      rw [(findEq_eq_some_iff _ i).mpr hi] at h
      exact Option.noConfusion h
    refine ⟨by simp [isInKeyPosition, isInValuePosition, h], ?_, ?_⟩
    · simp only [isInValuePosition, h]
      constructor
      · intro hfalse
        exact absurd hfalse (by simp)
      · rintro ⟨i, hi, _⟩
        exact absurd hi (hno i)
    · simp only [isInKeyPosition, h, true_iff]
      exact Or.inl ((findEq_eq_none_iff _).mp h)
  | some i =>
    have hfe : IsFirstEq line.data i := (findEq_eq_some_iff _ i).mp h
    refine ⟨?_, ?_, ?_⟩
    · simp only [isInKeyPosition, isInValuePosition, h]
      rcases Nat.lt_or_ge i c with hc | hc
      · rw [decide_eq_true hc, decide_eq_false (Nat.not_le_of_lt hc)]
        rfl
      · rw [decide_eq_true hc, decide_eq_false (Nat.not_lt.mpr hc)]
        rfl
    · simp only [isInValuePosition, h, decide_eq_true_eq]
      constructor
      · intro hic
        exact ⟨i, hfe, hic⟩
      · rintro ⟨j, hj, hjc⟩
        rwa [isFirstEq_unique hfe hj]
    · simp only [isInKeyPosition, h, decide_eq_true_eq]
      constructor
      · intro hci
        exact Or.inr ⟨i, hfe, hci⟩
      · rintro (hall | ⟨j, hj, hcj⟩)
        · have hne : findEq line.data = none := (findEq_eq_none_iff _).mpr hall
          rw [h] at hne
          exact Option.noConfusion hne
        · rwa [isFirstEq_unique hfe hj]

/- ## C3: value range of keyValue lines -/

theorem parseLine_keyValue_valueRange (line : String) (n : Nat)
    (hkv : (parseLine line n).type = .keyValue) :
    (parseLine line n).valueRange = some (computeValueRange line.data) := by
  by_cases h1 : line.data.all isWS = true
  · exfalso
    rw [show parseLine line n = { type := .empty, lineNumber := n, raw := line } from by
      unfold parseLine; rw [if_pos h1]] at hkv
    exact LineKind.noConfusion hkv
  · by_cases h2 : commentTest line.data = true
    · exfalso
      rw [show parseLine line n = { type := .comment, lineNumber := n, raw := line } from by
        unfold parseLine; rw [if_neg h1, if_pos h2]] at hkv
      exact LineKind.noConfusion hkv
    · cases h3 : keyValueMatch line.data with
      | none =>
        exfalso
        rw [show parseLine line n = { type := .invalid, lineNumber := n, raw := line } from by
          unfold parseLine; rw [if_neg h1, if_neg h2, h3]] at hkv
        exact LineKind.noConfusion hkv
      | some trip =>
        obtain ⟨indLen, key, val⟩ := trip
        rw [show parseLine line n =
            { type := .keyValue, lineNumber := n,
              key := some ⟨key⟩, value := some ⟨val⟩,
              keyRange := some ⟨indLen, indLen + key.length⟩,
              valueRange := some (computeValueRange line.data),
              raw := line } from by
          unfold parseLine; rw [if_neg h1, if_neg h2, h3]]

theorem computeValueRange_start (l : List Char) (i j : Nat)
    (h1 : IsFirstEq l i) (h2 : IsFirstNonWsAfter l i j) :
    (computeValueRange l).start = j := by
  have hfe : findEq l = some i := (findEq_eq_some_iff l i).mpr h1
  unfold computeValueRange
  rw [hfe]
  simp only [Option.getD_some]
  rw [length_sub_dropWhile]
  obtain ⟨hij, hjlen, hjws, hbetween⟩ := h2
  rcases Nat.lt_trichotomy (i + 1 + ((l.drop (i + 1)).takeWhile isWS).length) j
    with hlt | heq | hgt
  · exfalso
    have htlt : ((l.drop (i + 1)).takeWhile isWS).length < (l.drop (i + 1)).length := by
      rw [List.length_drop]
      omega
    have hfalse := takeWhile_getD_false isWS ' ' (l.drop (i + 1)) htlt
    rw [getD_drop_eq] at hfalse
    have htrue : isWS (l.getD (i + 1 + ((l.drop (i + 1)).takeWhile isWS).length) ' ')
        = true := hbetween _ hlt (by omega)
    rw [htrue] at hfalse
    exact Bool.noConfusion hfalse
  · omega
  · exfalso
    have hm : j - (i + 1) < ((l.drop (i + 1)).takeWhile isWS).length := by omega
    have htrue := takeWhile_getD_true isWS ' ' (l.drop (i + 1)) (j - (i + 1)) hm
    rw [getD_drop_eq] at htrue
    have hidx : i + 1 + (j - (i + 1)) = j := by omega
    rw [hidx] at htrue
    rw [htrue] at hjws
    exact Bool.noConfusion hjws

/-- C3: for every line classified keyValue, the value range ends at the
offset of the end of the line after trailing-whitespace trim, and its
start is the index of the first non-whitespace character after the
first equals sign of the line whenever such a character exists. -/
theorem parseLine_valueRange_spec (line : String) (n : Nat) (vr : Range)
    (hkv : (parseLine line n).type = .keyValue)
    (hvr : (parseLine line n).valueRange = some vr) :
    vr.«end» = (wsTrimEnd line.data).length
  ∧ ∀ i j, IsFirstEq line.data i → IsFirstNonWsAfter line.data i j → vr.start = j := by
  rw [parseLine_keyValue_valueRange line n hkv] at hvr
  injection hvr with hvr
  subst hvr
  exact ⟨rfl, fun i j h1 h2 => computeValueRange_start line.data i j h1 h2⟩

/-- C3 witness: on the line "key = value" the value range is computed
as claimed. -/
theorem parseLine_valueRange_spec_witness :
    (⟨6, 11⟩ : Range).«end» = (wsTrimEnd ("key = value").data).length ∧
    (⟨6, 11⟩ : Range).start = 6 := by
  have h := parseLine_valueRange_spec "key = value" 0 ⟨6, 11⟩ (by decide) (by decide)
  exact ⟨h.1, h.2 4 6 (by decide) (by decide)⟩

/- ## C2: empty values -/

/-- C2 counterexample: for a key absent from the schema options, a
whitespace-only value yields the unknown-key warning with isValid false,
not isValid true as claimed for keys not present in the options. -/
theorem validateValue_empty_unknownKey_counterexample :
    trimJS " " = "" ∧ (validateValue SEmpty "foo" " ").isValid = false := by
  decide

/-- C2 (amended): for every key that is present in the schema options,
an empty or whitespace-only value is always accepted, regardless of the
declared option type. -/
theorem validateValue_emptyValue_spec (schema : GhosttySchema) (key value : String)
    (opt : ConfigOption) (hopt : findOption schema key = some opt)
    (hws : value.data.all isWS = true) :
    validateValue schema key value = ⟨true, none, none⟩ := by
  simp [validateValue, hopt, hws]

/-- C2 witness: the whitespace-only value of a known boolean key is
accepted. -/
theorem validateValue_emptyValue_spec_witness :
    validateValue SBool "bold" "   " = ⟨true, none, none⟩ :=
  validateValue_emptyValue_spec SBool "bold" "   " boolOption (by decide) (by decide)

/- ## C10: enum options without an enum list -/

/-- C10: for a schema option of enum type that declares no enum list,
every non-empty value is accepted (membership checking is skipped). -/
theorem validateValue_enumNoList_spec (schema : GhosttySchema) (key value : String)
    (opt : ConfigOption) (hopt : findOption schema key = some opt)
    (htype : opt.type = .enum) (henum : opt.enum = none)
    (hne : value.data.all isWS = false) :
    validateValue schema key value = ⟨true, none, none⟩ := by
  simp [validateValue, hopt, hne, htype, validateEnum, henum]

/-- C10 witness: an arbitrary value of an enum option without an enum
list is accepted. -/
theorem validateValue_enumNoList_spec_witness :
    validateValue SEnumNoList "mode" "whatever" = ⟨true, none, none⟩ :=
  validateValue_enumNoList_spec SEnumNoList "mode" "whatever" enumNoListOption
    (by decide) (by decide) (by decide) (by decide)

/- ## C1 and C7: keybind validation -/

theorem ne_clear_of_findEq_some {value : String} {i : Nat}
    (heq : findEq value.data = some i) : value ≠ "clear" := by
  intro h
  rw [h, show findEq ("clear").data = none from by decide] at heq
  exact Option.noConfusion heq

/-- C1 counterexample: with a non-empty action vocabulary that excludes
teleport, validateValue on a well-formed keybind with the unknown action
teleport returns severity warning but isValid false, refuting the
claimed isValid true. -/
theorem validateValue_unknownAction_counterexample :
    ((findType SK "keybind").bind TypeDefinition.actions) = some ["copy_to_clipboard"]
  ∧ (validateValue SK "keybind" "ctrl+x=teleport").isValid = false
  ∧ (validateValue SK "keybind" "ctrl+x=teleport").severity = some .warning := by
  decide

/-- C1 (amended): when the keybind type definition declares a non-empty
action vocabulary and the value is trigger=action with non-empty trigger
and non-empty action name not in the vocabulary, validateValue returns
isValid false with the advisory severity warning. -/
theorem validateValue_unknownAction_spec (schema : GhosttySchema)
    (key value : String) (opt : ConfigOption) (td : TypeDefinition)
    (acts : List String) (i : Nat)
    (hopt : findOption schema key = some opt)
    (htype : opt.type = .keybind)
    (htd : findType schema "keybind" = some td)
    (hacts : td.actions = some acts)
    (hlen : 0 < acts.length)
    (heq : findEq value.data = some i)
    (htrig : (value.data.take i).all isWS = false)
    (hact : ((value.data.drop (i + 1)).takeWhile (fun c => c != ':')).all isWS = false)
    (hmem : (⟨(value.data.drop (i + 1)).takeWhile (fun c => c != ':')⟩ : String) ∉ acts) :
    validateValue schema key value =
      ⟨false,
       some ("Unknown keybind action: \x27" ++
         String.mk ((value.data.drop (i + 1)).takeWhile (fun c => c != ':')) ++ "\x27"),
       some .warning⟩ := by
  have hvne : value.data.all isWS = false := all_false_of_take_all_false htrig
  have hclear : value ≠ "clear" := ne_clear_of_findEq_some heq
  simp [validateValue, hopt, hvne, htype, validateKeybind, hclear, heq, htrig, hact,
    htd, hacts, hlen, hmem]

/-- C1 witness: the amended statement evaluated on the teleport example. -/
theorem validateValue_unknownAction_spec_witness :
    validateValue SK "keybind" "ctrl+x=teleport" =
      ⟨false, some "Unknown keybind action: \x27teleport\x27", some .warning⟩ := by
  rw [validateValue_unknownAction_spec SK "keybind" "ctrl+x=teleport" kbOption
    kbTypeDef ["copy_to_clipboard"] 6 (by decide) (by decide) (by decide) (by decide)
    (by decide) (by decide) (by decide) (by decide) (by decide)]
  decide

/-- C7: the literal clear is a valid keybind; a value without an equals
sign is a format error; a whitespace-only trigger is an error; a
whitespace-only action name (the part of the action segment before its
first colon) is an error. -/
theorem validateKeybind_structure_spec (schema : GhosttySchema) (value : String) :
    (value = "clear" → validateKeybind value schema = ⟨true, none, none⟩)
  ∧ (findEq value.data = none → value ≠ "clear" →
      validateKeybind value schema =
        ⟨false, some "Invalid keybind format. Expected: [prefix:]trigger=action[:param]",
         some .error⟩)
  ∧ (∀ i, findEq value.data = some i → (value.data.take i).all isWS = true →
      validateKeybind value schema =
        ⟨false, some "Keybind trigger cannot be empty", some .error⟩)
  ∧ (∀ i, findEq value.data = some i → (value.data.take i).all isWS = false →
      ((value.data.drop (i + 1)).takeWhile (fun c => c != ':')).all isWS = true →
      validateKeybind value schema =
        ⟨false, some "Keybind action cannot be empty", some .error⟩) := by
  refine ⟨?_, ?_, ?_, ?_⟩
  · intro h
    subst h
    simp [validateKeybind]
  · intro hnone hcl
    simp [validateKeybind, hcl, hnone]
  · intro i heq htr
    simp [validateKeybind, ne_clear_of_findEq_some heq, heq, htr]
  · intro i heq htr hact
    simp [validateKeybind, ne_clear_of_findEq_some heq, heq, htr, hact]

/-- C7 witness: the four structural keybind rules evaluated on concrete
values. -/
theorem validateKeybind_structure_spec_witness :
    validateKeybind "clear" SK = ⟨true, none, none⟩
  ∧ validateKeybind "abc" SK =
      ⟨false, some "Invalid keybind format. Expected: [prefix:]trigger=action[:param]",
       some .error⟩
  ∧ validateKeybind "=copy" SK =
      ⟨false, some "Keybind trigger cannot be empty", some .error⟩
  ∧ validateKeybind "ctrl+c=" SK =
      ⟨false, some "Keybind action cannot be empty", some .error⟩ :=
  ⟨(validateKeybind_structure_spec SK "clear").1 rfl,
   (validateKeybind_structure_spec SK "abc").2.1 (by decide) (by decide),
   (validateKeybind_structure_spec SK "=copy").2.2.1 0 (by decide) (by decide),
   (validateKeybind_structure_spec SK "ctrl+c=").2.2.2 6 (by decide) (by decide) (by decide)⟩

/- ## C6: colour validation -/

theorem hexTest_iff (n : Nat) (s : String) :
    hexTest n s = true ↔
      ∃ l, s.data = '#' :: l ∧ l.length = n ∧ ∀ c ∈ l, isHexDigit c = true := by
  cases h : s.data with
  | nil => simp [hexTest, h]
  | cons c rest =>
    simp only [hexTest, h, Bool.and_eq_true, decide_eq_true_eq, List.all_eq_true]
    constructor
    · rintro ⟨⟨hc, hlen⟩, hall⟩
      subst hc
      exact ⟨rest, rfl, hlen, hall⟩
    · rintro ⟨l, hl, hlen, hall⟩
      injection hl with h1 h2
      subst h1
      subst h2
      exact ⟨⟨rfl, hlen⟩, hall⟩

theorem hexNoHashTest_iff (s : String) :
    hexNoHashTest s = true ↔ s.data.length = 6 ∧ ∀ c ∈ s.data, isHexDigit c = true := by
  simp [hexNoHashTest, List.all_eq_true]

/-- C6: a colour value is accepted exactly when it is a hash sign
followed by 3, 6 or 8 hexadecimal digits, or a bare run of exactly 6
hexadecimal digits, or a case-insensitive named colour; every rejected
value carries the colour error message with severity error. -/
theorem validateColor_spec (s : String) :
    ((validateColor s).isValid = true ↔ colorSpecAccepts s)
  ∧ ((validateColor s).isValid = true ∨
      validateColor s =
        ⟨false,
         some ("Invalid colour: \x27" ++ s ++
           "\x27. Expected hex (#RGB, #RRGGBB, #RRGGBBAA) or named colour"),
         some .error⟩) := by
  constructor
  · unfold validateColor
    by_cases h1 : (hexColorRegexTest s || hexNoHashTest s) = true
    · rw [if_pos h1]
      simp only [true_iff]
      have h1x := h1
      rw [Bool.or_eq_true] at h1x
      rcases h1x with hreg | hnh
      · have hreg' := hreg
        simp only [hexColorRegexTest, Bool.or_eq_true, or_assoc] at hreg'
        rcases hreg' with h3 | h6 | h8
        · obtain ⟨l, hl, hlen, hall⟩ := (hexTest_iff 3 s).mp h3
          exact Or.inl ⟨l, hl, Or.inl hlen, hall⟩
        · obtain ⟨l, hl, hlen, hall⟩ := (hexTest_iff 6 s).mp h6
          exact Or.inl ⟨l, hl, Or.inr (Or.inl hlen), hall⟩
        · obtain ⟨l, hl, hlen, hall⟩ := (hexTest_iff 8 s).mp h8
          exact Or.inl ⟨l, hl, Or.inr (Or.inr hlen), hall⟩
      · exact Or.inr (Or.inl ((hexNoHashTest_iff s).mp hnh))
    · rw [if_neg h1]
      by_cases h2 : strToLower s ∈ NAMED_COLORS
      · rw [if_pos h2]
        simp only [true_iff]
        exact Or.inr (Or.inr h2)
      · rw [if_neg h2]
        simp only [Bool.false_eq_true, false_iff]
        rintro (⟨l, hl, hlen, hall⟩ | hmid | hnamed)
        · apply h1
          rw [Bool.or_eq_true]
          refine Or.inl ?_
          simp only [hexColorRegexTest, Bool.or_eq_true, or_assoc]
          rcases hlen with h3 | h6 | h8
          · exact Or.inl ((hexTest_iff 3 s).mpr ⟨l, hl, h3, hall⟩)
          · exact Or.inr (Or.inl ((hexTest_iff 6 s).mpr ⟨l, hl, h6, hall⟩))
          · exact Or.inr (Or.inr ((hexTest_iff 8 s).mpr ⟨l, hl, h8, hall⟩))
        · exact h1 (by rw [Bool.or_eq_true]; exact Or.inr ((hexNoHashTest_iff s).mpr hmid))
        · exact h2 hnamed
  · unfold validateColor
    by_cases h1 : (hexColorRegexTest s || hexNoHashTest s) = true
    · rw [if_pos h1]
      exact Or.inl rfl
    · rw [if_neg h1]
      by_cases h2 : strToLower s ∈ NAMED_COLORS
      · rw [if_pos h2]
        exact Or.inl rfl
      · rw [if_neg h2]
        exact Or.inr rfl

/- ## Completion helper lemmas -/

theorem mem_labels_append (a b : List CompletionItem) (x : String) :
    x ∈ labels (a ++ b) ↔ x ∈ labels a ∨ x ∈ labels b := by
  simp [labels, List.mem_append]

theorem mem_labels_filter_map_gen {α : Type} (cs : List α) (f : α → Bool)
    (mk : α → CompletionItem) (lab : α → String)
    (hmk : ∀ v, (mk v).label = lab v) (x : String) :
    x ∈ labels ((cs.filter f).map mk) ↔ ∃ c, c ∈ cs ∧ f c = true ∧ lab c = x := by
  simp only [labels, List.map_map, List.mem_map, Function.comp_apply, List.mem_filter]
  constructor
  · rintro ⟨c, ⟨hc, hf⟩, hl⟩
    rw [hmk] at hl
    exact ⟨c, hc, hf, hl⟩
  · rintro ⟨c, hc, hf, hl⟩
    exact ⟨c, ⟨hc, hf⟩, by rw [hmk, hl]⟩

theorem mem_labels_filter_map_str (cs : List String) (f : String → Bool)
    (mk : String → CompletionItem) (hmk : ∀ v, (mk v).label = v) (x : String) :
    x ∈ labels ((cs.filter f).map mk) ↔ x ∈ cs ∧ f x = true := by
  rw [mem_labels_filter_map_gen cs f mk (fun v => v) hmk x]
  constructor
  · rintro ⟨c, hc, hf, hl⟩
    subst hl
    exact ⟨hc, hf⟩
  · rintro ⟨hx, hf⟩
    exact ⟨x, hx, hf, rfl⟩

theorem labels_map_mk {α : Type} (cs : List α) (mk : α → CompletionItem)
    (lab : α → String) (hmk : ∀ v, (mk v).label = lab v) :
    labels (cs.map mk) = cs.map lab := by
  induction cs with
  | nil => rfl
  | cons c t ih =>
    show ((c :: t).map mk).map CompletionItem.label = (c :: t).map lab
    rw [List.map_cons, List.map_cons, List.map_cons, hmk c]
    exact congrArg (lab c :: ·) ih

theorem labels_map_mk_id (cs : List String) (mk : String → CompletionItem)
    (hmk : ∀ v, (mk v).label = v) : labels (cs.map mk) = cs := by
  rw [labels_map_mk cs mk (fun v => v) hmk, List.map_id']

theorem labels_filter_map_keys (l : List (String × ConfigOption)) (p : String → Bool)
    (g : String × ConfigOption → CompletionItem) (hg : ∀ kv, (g kv).label = kv.1) :
    labels ((l.filter (fun kv => p kv.1)).map g) = (l.map Prod.fst).filter p := by
  induction l with
  | nil => rfl
  | cons kv t ih =>
    cases hp : p kv.1 with
    | true =>
      show labels (((kv :: t).filter fun kv => p kv.1).map g) = _
      rw [List.filter_cons, if_pos (by simpa using hp), List.map_cons, List.map_cons,
        List.filter_cons, if_pos (by simpa using hp)]
      show (g kv).label :: labels ((t.filter fun kv => p kv.1).map g) = _
      rw [hg kv, ih]
    | false =>
      show labels (((kv :: t).filter fun kv => p kv.1).map g) = _
      rw [List.filter_cons, if_neg (by simp [hp]), List.map_cons,
        List.filter_cons, if_neg (by simp [hp])]
      exact ih

/- ## C4: key completion -/

/-- C4 counterexample: with two non-deprecated keys declared out of
lexicographic order and an empty partial, the returned list keeps the
declaration order b before a rather than the claimed lexicographic
order with non-deprecated keys first. -/
theorem getKeyCompletions_order_counterexample :
    (SBA.options.all fun kv => !(kv.2.deprecated.getD false)) = true
  ∧ labels (getKeyCompletions SBA "") = ["b", "a"]
  ∧ ["b", "a"] ≠ ["a", "b"] := by
  decide

/-- C4 (amended): key completion returns, in schema declaration order,
exactly the schema keys matched by the partial text (each exactly once
when the schema keys are unique, and all of them when the partial is
empty); deprecated keys are not reordered but demoted only through their
sortText field, which is the key prefixed with z underscore for
deprecated keys and the key itself otherwise. -/
theorem getKeyCompletions_spec (schema : GhosttySchema) (text : String) :
    (labels (getKeyCompletions schema text)
       = (schema.options.map Prod.fst).filter
           (fun k => strIsEmpty (strToLower (trimJS text)) ||
             strIncludes (strToLower k) (strToLower (trimJS text))))
  ∧ (∀ it ∈ getKeyCompletions schema text, ∃ kv, kv ∈ schema.options ∧ it.label = kv.1 ∧
       it.sortText = some (if kv.2.deprecated.getD false then "z_" ++ kv.1 else kv.1))
  ∧ (trimJS text = "" → labels (getKeyCompletions schema text) = schema.options.map Prod.fst)
  ∧ ((schema.options.map Prod.fst).Nodup → (labels (getKeyCompletions schema text)).Nodup) := by
  have hmain : labels (getKeyCompletions schema text)
      = (schema.options.map Prod.fst).filter
          (fun k => strIsEmpty (strToLower (trimJS text)) ||
            strIncludes (strToLower k) (strToLower (trimJS text))) :=
    labels_filter_map_keys schema.options
      (fun k => strIsEmpty (strToLower (trimJS text)) ||
        strIncludes (strToLower k) (strToLower (trimJS text))) _ (fun kv => rfl)
  refine ⟨hmain, ?_, ?_, ?_⟩
  · intro it hit
    rcases List.mem_map.mp hit with ⟨kv, hkv, hmk⟩
    exact ⟨kv, (List.mem_filter.mp hkv).1, by rw [← hmk], by rw [← hmk]⟩
  · intro h
    rw [hmain]
    have hlow : strToLower (trimJS text) = "" := by rw [h]; rfl
    simp only [hlow]
    have hall : ∀ k ∈ schema.options.map Prod.fst,
        (strIsEmpty "" || strIncludes (strToLower k) "") = true := by
      intro k _
      rfl
    exact List.filter_eq_self.mpr hall
  · intro hnd
    rw [hmain]
    exact hnd.filter _

/-- C4 witness: on the concrete two-key schema with an empty partial,
the amended statement yields both keys, each exactly once. -/
theorem getKeyCompletions_spec_witness :
    labels (getKeyCompletions SBA "") = ["b", "a"]
  ∧ (labels (getKeyCompletions SBA "")).Nodup := by
  have h := getKeyCompletions_spec SBA ""
  refine ⟨?_, h.2.2.2 (by decide)⟩
  rw [h.2.2.1 (by decide)]
  decide

/- ## C5: value completion filtering -/

theorem labels_append (a b : List CompletionItem) :
    labels (a ++ b) = labels a ++ labels b :=
  List.map_append _ a b

/-- The extra startsWith disjunct on the hex template is redundant: a
partial that the insert text begins with is empty or the hash sign. -/
theorem startsW_hash_redundant (p : String) (h : strStartsW "#" p = true) :
    strIsEmpty p = true ∨ strIncludes (strToLower "#RRGGBB") p = true := by
  cases p with
  | mk pdata =>
    cases pdata with
    | nil => exact Or.inl rfl
    | cons c cs =>
      cases cs with
      | nil =>
        right
        have hc : c = '#' := by
          have h' : (decide ('#' = c) && true) = true := h
          have := (Bool.and_eq_true _ _).mp h'
          exact (decide_eq_true_eq.mp this.1).symm
        subst hc
        decide
      | cons d ds =>
        exfalso
        have h' : (decide ('#' = c) && listStartsWith [] (d :: ds)) = true := h
        have := (Bool.and_eq_true _ _).mp h'
        exact Bool.noConfusion this.2

theorem namedCompletionColors_lower :
    ∀ c ∈ namedCompletionColors, strToLower c = c := by decide

theorem keybindCandidates_lower_aux :
    ∀ v ∈ commonKeybinds, strToLower v = v := by decide

/-- C5 counterexample: the boolean candidate true contains the partial
rue as a case-insensitive substring, yet boolean completion filters by
prefix and returns nothing. -/
theorem getBooleanCompletions_substring_counterexample :
    strIncludes (strToLower "true") "rue" = true
  ∧ labels (getBooleanCompletions "rue") = [] := by
  decide

/-- C5 (amended): colour, enum, theme-name, example and trigger-phase
keybind completion filter their candidates by containment of the partial
text in the lowercased candidate, and the empty partial always yields
the whole candidate set; however boolean completion filters by prefix
match, the action-phase keybind completion filters by the segment of the
partial between its first and second equals sign, and the theme
combination template is offered when the partial is contained in the
tokens light-colon or dark-colon. -/
theorem valueCompletionFiltering_spec (schema : GhosttySchema) :
    (∀ p v, v ∈ labels (getBooleanCompletions p) ↔
        v ∈ ["true", "false"] ∧ (strIsEmpty p = true ∨ strStartsW v p = true))
  ∧ (∀ p v, v ∈ labels (getColorCompletions p) ↔
        v ∈ "#RRGGBB" :: namedCompletionColors ∧
          (strIsEmpty p = true ∨ strIncludes (strToLower v) p = true))
  ∧ (∀ opt vs p v, opt.enum = some vs →
        (v ∈ labels (getEnumCompletions opt p) ↔
          v ∈ vs ∧ (strIsEmpty p = true ∨ strIncludes (strToLower v) p = true)))
  ∧ (∀ p v, strIncludes p "=" = false →
        (v ∈ labels (getKeybindCompletions schema p) ↔
          v ∈ commonPatterns.map Prod.fst ++ commonKeybinds ∧
            (strIsEmpty p = true ∨ strIncludes (strToLower v) p = true)))
  ∧ (∀ td acts p v, strIncludes p "=" = true →
        findType schema "keybind" = some td → td.actions = some acts →
        (v ∈ labels (getKeybindCompletions schema p) ↔
          v ∈ acts ∧ (strIsEmpty (strToLower (splitSecondSeg p)) = true ∨
            strIncludes (strToLower v) (strToLower (splitSecondSeg p)) = true)))
  ∧ (∀ p v, v ∈ labels (getThemeCompletions p) ↔
        ((v ∈ themesList ∧ (strIsEmpty p = true ∨ strIncludes (strToLower v) p = true))
          ∨ (v = themeComboLabel ∧ (strIsEmpty p = true ∨
              strIncludes "light:" p = true ∨ strIncludes "dark:" p = true))))
  ∧ (∀ opt exs p v, opt.examples = some exs → exs.length ≠ 0 →
        (v ∈ labels (getExampleCompletions opt p) ↔
          v ∈ exs ∧ (strIsEmpty p = true ∨ strIncludes (strToLower v) p = true)))
  ∧ (labels (getBooleanCompletions "") = ["true", "false"]
      ∧ labels (getColorCompletions "") = "#RRGGBB" :: namedCompletionColors
      ∧ (∀ opt vs, opt.enum = some vs → labels (getEnumCompletions opt "") = vs)
      ∧ labels (getKeybindCompletions schema "")
          = commonPatterns.map Prod.fst ++ commonKeybinds
      ∧ labels (getThemeCompletions "") = themesList ++ [themeComboLabel]
      ∧ (∀ opt exs, opt.examples = some exs → exs.length ≠ 0 →
          labels (getExampleCompletions opt "") = exs)) := by
  refine ⟨?_, ?_, ?_, ?_, ?_, ?_, ?_, ?_, ?_, ?_, ?_, ?_, ?_⟩
  · -- boolean membership
    intro p v
    unfold getBooleanCompletions
    rw [mem_labels_filter_map_str _ _ _ (fun v => rfl) v]
    simp [Bool.or_eq_true]
  · -- colour membership
    intro p v
    unfold getColorCompletions
    rw [mem_labels_append,
      mem_labels_filter_map_gen hexTemplates _ _ (fun t => t.1) (fun t => rfl) v,
      mem_labels_filter_map_str namedCompletionColors _ _ (fun c => rfl) v]
    constructor
    · rintro (⟨t, ht, hf, hl⟩ | ⟨hv, hf⟩)
      · have ht' : t = ("#RRGGBB", "#", "Hex colour (e.g. #ff0000)") := by
          simpa [hexTemplates] using ht
        subst ht'
        subst hl
        refine ⟨List.mem_cons_self _ _, ?_⟩
        simp only [Bool.or_eq_true, or_assoc] at hf
        rcases hf with h | h | h
        · exact Or.inl h
        · exact Or.inr h
        · exact startsW_hash_redundant p h
      · refine ⟨List.mem_cons_of_mem _ hv, ?_⟩
        rw [namedCompletionColors_lower v hv]
        simpa [Bool.or_eq_true] using hf
    · rintro ⟨hv, hcond⟩
      rcases List.mem_cons.mp hv with rfl | hv'
      · refine Or.inl ⟨("#RRGGBB", "#", "Hex colour (e.g. #ff0000)"),
          by simp [hexTemplates], ?_, rfl⟩
        rcases hcond with h | h
        · simp [h]
        · simp [h]
      · refine Or.inr ⟨hv', ?_⟩
        rw [namedCompletionColors_lower v hv'] at hcond
        rcases hcond with h | h
        · simp [h]
        · simp [h]
  · -- enum membership
    intro opt vs p v h
    unfold getEnumCompletions
    simp only [h]
    rw [mem_labels_filter_map_str _ _ _ (fun v => rfl) v]
    simp [Bool.or_eq_true]
  · -- keybind membership, trigger phase
    intro p v hph
    unfold getKeybindCompletions
    rw [if_neg (by simp [hph])]
    rw [mem_labels_append,
      mem_labels_filter_map_gen commonPatterns _ _ (fun pr => pr.1) (fun pr => rfl) v,
      mem_labels_filter_map_str commonKeybinds _ _ (fun kb => rfl) v, List.mem_append]
    constructor
    · rintro (⟨pr, hpr, hf, hl⟩ | ⟨hv, hf⟩)
      · subst hl
        exact ⟨Or.inl (List.mem_map_of_mem Prod.fst hpr), by simpa [Bool.or_eq_true] using hf⟩
      · exact ⟨Or.inr hv, by simpa [Bool.or_eq_true] using hf⟩
    · rintro ⟨hv | hv, hcond⟩
      · rcases List.mem_map.mp hv with ⟨pr, hpr, hl⟩
        refine Or.inl ⟨pr, hpr, ?_, hl⟩
        rw [hl]
        rcases hcond with h | h
        · simp [h]
        · simp [h]
      · refine Or.inr ⟨hv, ?_⟩
        rcases hcond with h | h
        · simp [h]
        · simp [h]
  · -- keybind membership, action phase
    intro td acts p v hph htd hacts
    unfold getKeybindCompletions
    rw [if_pos hph]
    simp only [htd, hacts]
    rw [mem_labels_filter_map_str acts _ _ (fun a => rfl) v]
    simp [Bool.or_eq_true]
  · -- theme membership
    intro p v
    unfold getThemeCompletions
    rw [mem_labels_append,
      mem_labels_filter_map_str themesList _ _ (fun t => rfl) v]
    constructor
    · rintro (⟨hv, hf⟩ | hcombo)
      · exact Or.inl ⟨hv, by simpa [Bool.or_eq_true] using hf⟩
      · by_cases hcond :
          (strIsEmpty p || strIncludes "light:" p || strIncludes "dark:" p) = true
        · rw [if_pos hcond] at hcombo
          refine Or.inr ⟨by simpa [labels] using hcombo, ?_⟩
          simpa [Bool.or_eq_true, or_assoc] using hcond
        · rw [if_neg hcond] at hcombo
          simp [labels] at hcombo
    · rintro (⟨hv, hcond⟩ | ⟨rfl, hcond⟩)
      · refine Or.inl ⟨hv, ?_⟩
        rcases hcond with h | h
        · simp [h]
        · simp [h]
      · refine Or.inr ?_
        rw [if_pos (by simpa [Bool.or_eq_true, or_assoc] using hcond)]
        simp [labels]
  · -- examples membership
    intro opt exs p v h hne
    unfold getExampleCompletions
    simp only [h]
    rw [if_neg hne]
    rw [mem_labels_filter_map_str _ _ _ (fun v => rfl) v]
    simp [Bool.or_eq_true]
  · -- empty partial: boolean
    decide
  · -- empty partial: colour
    decide
  · -- empty partial: enum
    intro opt vs h
    unfold getEnumCompletions
    simp only [h]
    have hfil : List.filter (fun v => strIsEmpty "" || strIncludes (strToLower v) "") vs
        = vs := List.filter_eq_self.mpr (fun v _ => rfl)
    rw [hfil]
    exact labels_map_mk_id vs _ (fun v => rfl)
  · -- empty partial: keybind
    unfold getKeybindCompletions
    rw [if_neg (by decide)]
    have h1 : List.filter (fun pr => strIsEmpty "" || strIncludes (strToLower pr.1) "")
        commonPatterns = commonPatterns := List.filter_eq_self.mpr (fun pr _ => rfl)
    have h2 : List.filter (fun kb => strIsEmpty "" || strIncludes (strToLower kb) "")
        commonKeybinds = commonKeybinds := List.filter_eq_self.mpr (fun kb _ => rfl)
    rw [h1, h2, labels_append,
      labels_map_mk commonPatterns _ (fun pr => pr.1) (fun pr => rfl),
      labels_map_mk_id commonKeybinds _ (fun kb => rfl)]
  · -- empty partial: theme
    decide
  · -- empty partial: examples
    intro opt exs h hne
    unfold getExampleCompletions
    simp only [h]
    rw [if_neg hne]
    have hfil : List.filter (fun ex => strIsEmpty "" || strIncludes (strToLower ex) "") exs
        = exs := List.filter_eq_self.mpr (fun ex _ => rfl)
    rw [hfil]
    exact labels_map_mk_id exs _ (fun ex => rfl)

/-- C5 witness: the amended statement evaluated for boolean and enum
completion with an empty partial. -/
theorem valueCompletionFiltering_spec_witness :
    labels (getBooleanCompletions "") = ["true", "false"]
  ∧ labels (getEnumCompletions enumABOption "") = ["alpha", "beta"] := by
  obtain ⟨-, -, -, -, -, -, -, hbool, -, henum, -⟩ := valueCompletionFiltering_spec SEmpty
  exact ⟨hbool, henum enumABOption ["alpha", "beta"] rfl⟩

/- ## C9: number validation -/

/-- C9: number validation fails with the invalid-number error when the
value parses to NaN; otherwise, when a declared minimum is violated the
result is an error naming the minimum, when the minimum is respected
and a declared maximum is violated the result is an error naming the
maximum, and when both declared bounds are respected (inclusively) the
value is accepted. -/
theorem validateNumber_spec (value : String) (o : ConfigOption) :
    (jsParseFloat value = .nan →
      validateNumber value (some o) =
        ⟨false, some ("Invalid number: \x27" ++ value ++ "\x27"), some .error⟩)
  ∧ (∀ n, jsParseFloat value = n → n ≠ .nan →
      (∀ m, o.minimum = some m → jsLtQ n m = true →
        validateNumber value (some o) =
          ⟨false, some ("Value " ++ numToStr n ++ " is below minimum " ++ ratToStr m),
           some .error⟩)
    ∧ (∀ m, o.maximum = some m → minOk o n = true → jsGtQ n m = true →
        validateNumber value (some o) =
          ⟨false, some ("Value " ++ numToStr n ++ " is above maximum " ++ ratToStr m),
           some .error⟩)
    ∧ (minOk o n = true → maxOk o n = true →
        validateNumber value (some o) = ⟨true, none, none⟩)) := by
  constructor
  · intro hnan
    simp [validateNumber, hnan]
  · intro n hn hne
    refine ⟨?_, ?_, ?_⟩
    · intro m hm hlt
      simp [validateNumber, hn, hne, hm, hlt]
    · intro m hm hmin hgt
      have hminlt : jsLtQ n (o.minimum.getD 0) = false ∨ o.minimum = none := by
        cases hmin' : o.minimum with
        | none => exact Or.inr rfl
        | some m0 =>
          left
          have := hmin
          simp only [minOk, hmin'] at this
          simpa using this
      cases hmin' : o.minimum with
      | none => simp [validateNumber, hn, hne, hmin', numMaxCheck, hm, hgt]
      | some m0 =>
        have hlt0 : jsLtQ n m0 = false := by
          have := hmin
          simp only [minOk, hmin'] at this
          simpa using this
        simp [validateNumber, hn, hne, hmin', hlt0, numMaxCheck, hm, hgt]
    · intro hmin hmax
      have hmaxres : numMaxCheck n o = ⟨true, none, none⟩ := by
        cases hmax' : o.maximum with
        | none => simp [numMaxCheck, hmax']
        | some m0 =>
          have hgt0 : jsGtQ n m0 = false := by
            have := hmax
            simp only [maxOk, hmax'] at this
            simpa using this
          simp [numMaxCheck, hmax', hgt0]
      cases hmin' : o.minimum with
      | none => simp [validateNumber, hn, hne, hmin', hmaxres]
      | some m0 =>
        have hlt0 : jsLtQ n m0 = false := by
          have := hmin
          simp only [minOk, hmin'] at this
          simpa using this
        simp [validateNumber, hn, hne, hmin', hlt0, hmaxres]

/-- C9 witness: the bounded font-size option rejects 4 below the
minimum, rejects 96 above the maximum, and accepts 14. -/
theorem validateNumber_spec_witness :
    validateNumber "4" (some numOption) =
      ⟨false, some "Value 4 is below minimum 8", some .error⟩
  ∧ validateNumber "96" (some numOption) =
      ⟨false, some "Value 96 is above maximum 72", some .error⟩
  ∧ validateNumber "14" (some numOption) = ⟨true, none, none⟩ := by
  refine ⟨?_, ?_, ?_⟩
  · rw [((validateNumber_spec "4" numOption).2 (.val 4) (by decide) (by decide)).1
      8 (by decide) (by decide)]
    decide
  · rw [((validateNumber_spec "96" numOption).2 (.val 96) (by decide) (by decide)).2.1
      72 (by decide) (by decide) (by decide)]
    decide
  · exact ((validateNumber_spec "14" numOption).2 (.val 14) (by decide)
      (by decide)).2.2 (by decide) (by decide)

end GhosttyConfig
